import Mathlib

/-!
# Verification of the Iris classifier pipeline and serving app

Shallow embedding of the repository's data-processing stage
(`src/data_processing.py`), training/evaluation stage
(`src/model_training.py`) and the Flask serving app (`app.py`),
together with theorems settling the specification's claims.

Numeric values are modelled as exact rationals; pandas/numpy quantile and
median computations follow their documented linear-interpolation semantics.
-/

namespace IrisSpec

/- Batteries marks the arithmetic on `Rat` irreducible; restore reducibility so
that concrete witnesses can be checked with `decide`. -/
attribute [local semireducible] Rat.mul Rat.inv Rat.add Rat.sub Rat.ofScientific

/-! ### Quantiles: pandas `Series.quantile(q)` / `np.median`, linear interpolation.

For a sorted array `s` of length `n`, the virtual position of quantile `q`
is `h = q * (n - 1)`; the result interpolates between `s[⌊h⌋]` and the next
element (clamped to the last index). -/

/-- Virtual fractional position of quantile `q` in a sorted list of length `n`. -/
def hPos (n : ℕ) (q : ℚ) : ℚ := q * ((n : ℚ) - 1)

/-- Index at or below the virtual position. -/
def loIdx (n : ℕ) (q : ℚ) : ℕ := (⌊hPos n q⌋).toNat

/-- Index above the virtual position, clamped to the last element. -/
def hiIdx (n : ℕ) (q : ℚ) : ℕ := min (loIdx n q + 1) (n - 1)

/-- Linear interpolation at quantile `q` over an already-sorted list. -/
def interpSorted (s : List ℚ) (q : ℚ) : ℚ :=
  s.getD (loIdx s.length q) 0
    + (s.getD (hiIdx s.length q) 0 - s.getD (loIdx s.length q) 0)
      * (hPos s.length q - (loIdx s.length q : ℚ))

/-- Quantile with linear interpolation (pandas default), over an unsorted list. -/
def quantileAt (l : List ℚ) (q : ℚ) : ℚ :=
  interpSorted (l.insertionSort (· ≤ ·)) q

/-! ### `DataProcessing.handle_outliers` (`src/data_processing.py`, lines 116-162)

The Python code computes `Q1`, `Q3`, `IQR`, the bounds and the median once
from the (original) column, then iterates over the original column values;
each out-of-bounds value triggers `df[column].replace(value, median)`, i.e.
a value-based rewrite of the whole current column. -/

/-- `Q1 = df[column].quantile(0.25)`. -/
def q1Of (col : List ℚ) : ℚ := quantileAt col (1/4)

/-- `Q3 = df[column].quantile(0.75)`. -/
def q3Of (col : List ℚ) : ℚ := quantileAt col (3/4)

/-- `IQR = Q3 - Q1`. -/
def iqrOf (col : List ℚ) : ℚ := q3Of col - q1Of col

/-- `Lower_value = Q1 - 1.5 * IQR`. -/
def lowerOf (col : List ℚ) : ℚ := q1Of col - 3/2 * iqrOf col

/-- `Upper_value = Q3 + 1.5 * IQR`. -/
def upperOf (col : List ℚ) : ℚ := q3Of col + 3/2 * iqrOf col

/-- `sepal_median = np.median(df[column])`. -/
def medianOf (col : List ℚ) : ℚ := quantileAt col (1/2)

/-- `DataProcessing.handle_outliers`: iterate over the original column values;
whenever a value falls strictly outside the IQR bounds, replace every
occurrence of that value in the current column with the original median. -/
def handle_outliers (col : List ℚ) : List ℚ :=
  col.foldl
    (fun acc i =>
      if upperOf col < i ∨ i < lowerOf col then
        acc.map (fun x => if x = i then medianOf col else x)
      else acc)
    col

/-! ### Order facts about the interpolated quantile -/

lemma getD_mono_of_sorted {s : List ℚ} (hs : s.Sorted (· ≤ ·)) {i j : ℕ}
    (hij : i ≤ j) (hj : j < s.length) : s.getD i 0 ≤ s.getD j 0 := by
  have hi : i < s.length := lt_of_le_of_lt hij hj
  rw [List.getD_eq_getElem s 0 hi, List.getD_eq_getElem s 0 hj]
  rcases Nat.eq_or_lt_of_le hij with h | h
  · subst h; exact le_refl _
  · exact (List.pairwise_iff_getElem.mp hs) i j hi hj h

lemma hPos_nonneg {n : ℕ} (hn : 1 ≤ n) {q : ℚ} (hq : 0 ≤ q) : 0 ≤ hPos n q := by
  have h1 : (1 : ℚ) ≤ (n : ℚ) := by exact_mod_cast hn
  exact mul_nonneg hq (by linarith)

lemma loIdx_cast {n : ℕ} (hn : 1 ≤ n) {q : ℚ} (hq : 0 ≤ q) :
    ((loIdx n q : ℕ) : ℚ) = (⌊hPos n q⌋ : ℚ) := by
  unfold loIdx
  have h0 : 0 ≤ ⌊hPos n q⌋ := Int.floor_nonneg.mpr (hPos_nonneg hn hq)
  exact_mod_cast congrArg (fun z : ℤ => (z : ℚ)) (Int.toNat_of_nonneg h0)

lemma loIdx_le {n : ℕ} (hn : 1 ≤ n) {q : ℚ} (hq : q ≤ 1) : loIdx n q ≤ n - 1 := by
  unfold loIdx
  have hc : ((n - 1 : ℕ) : ℚ) = (n : ℚ) - 1 := by
    push_cast [Nat.cast_sub hn]; ring
  have h1 : hPos n q ≤ ((n - 1 : ℕ) : ℚ) := by
    rw [hc]
    unfold hPos
    have h2 : (1 : ℚ) ≤ (n : ℚ) := by exact_mod_cast hn
    exact mul_le_of_le_one_left (by linarith) hq
  have h2 : ⌊hPos n q⌋ ≤ ((n - 1 : ℕ) : ℤ) := by
    have := Int.floor_mono h1
    simpa using this
  exact Int.toNat_le.mpr h2

lemma hPos_mono {n : ℕ} (hn : 1 ≤ n) {q1 q2 : ℚ} (h : q1 ≤ q2) :
    hPos n q1 ≤ hPos n q2 := by
  have h1 : (1 : ℚ) ≤ (n : ℚ) := by exact_mod_cast hn
  exact mul_le_mul_of_nonneg_right h (by linarith)

lemma interpSorted_mono {s : List ℚ} (hs : s.Sorted (· ≤ ·)) (hne : s ≠ [])
    {q1 q2 : ℚ} (h0 : 0 ≤ q1) (h12 : q1 ≤ q2) (h21 : q2 ≤ 1) :
    interpSorted s q1 ≤ interpSorted s q2 := by
  have hn : 1 ≤ s.length := List.length_pos.mpr hne
  have hq20 : 0 ≤ q2 := le_trans h0 h12
  have hq11 : q1 ≤ 1 := le_trans h12 h21
  have hc1 : ((loIdx s.length q1 : ℕ) : ℚ) = (⌊hPos s.length q1⌋ : ℚ) := loIdx_cast hn h0
  have hc2 : ((loIdx s.length q2 : ℕ) : ℚ) = (⌊hPos s.length q2⌋ : ℚ) := loIdx_cast hn hq20
  have hle1 : loIdx s.length q1 ≤ s.length - 1 := loIdx_le hn hq11
  have hle2 : loIdx s.length q2 ≤ s.length - 1 := loIdx_le hn h21
  have hlast : s.length - 1 < s.length := Nat.sub_lt (by omega) (by omega)
  have hfr1a : 0 ≤ hPos s.length q1 - (loIdx s.length q1 : ℚ) := by
    rw [hc1]; have := Int.floor_le (hPos s.length q1); linarith
  have hfr1b : hPos s.length q1 - (loIdx s.length q1 : ℚ) ≤ 1 := by
    rw [hc1]; have := Int.lt_floor_add_one (hPos s.length q1); linarith
  have hfr2a : 0 ≤ hPos s.length q2 - (loIdx s.length q2 : ℚ) := by
    rw [hc2]; have := Int.floor_le (hPos s.length q2); linarith
  have hii : loIdx s.length q1 ≤ loIdx s.length q2 :=
    Int.toNat_le_toNat (Int.floor_mono (hPos_mono hn h12))
  have hAB1 : s.getD (loIdx s.length q1) 0 ≤ s.getD (hiIdx s.length q1) 0 := by
    apply getD_mono_of_sorted hs
    · exact le_min (Nat.le_succ _) hle1
    · unfold hiIdx; omega
  have hAB2 : s.getD (loIdx s.length q2) 0 ≤ s.getD (hiIdx s.length q2) 0 := by
    apply getD_mono_of_sorted hs
    · exact le_min (Nat.le_succ _) hle2
    · unfold hiIdx; omega
  rcases Nat.eq_or_lt_of_le hii with heq | hlt
  · have hih : hiIdx s.length q1 = hiIdx s.length q2 := by
      unfold hiIdx; rw [heq]
    unfold interpSorted
    rw [← heq, ← hih]
    have hg : hPos s.length q1 - (loIdx s.length q1 : ℚ)
        ≤ hPos s.length q2 - (loIdx s.length q1 : ℚ) := by
      have := hPos_mono hn h12; linarith
    have hmul : (s.getD (hiIdx s.length q1) 0 - s.getD (loIdx s.length q1) 0)
          * (hPos s.length q1 - (loIdx s.length q1 : ℚ))
        ≤ (s.getD (hiIdx s.length q1) 0 - s.getD (loIdx s.length q1) 0)
          * (hPos s.length q2 - (loIdx s.length q1 : ℚ)) :=
      mul_le_mul_of_nonneg_left hg (by linarith)
    linarith
  · have hB1A2 : s.getD (hiIdx s.length q1) 0 ≤ s.getD (loIdx s.length q2) 0 := by
      apply getD_mono_of_sorted hs
      · exact le_trans (min_le_left _ _) hlt
      · omega
    unfold interpSorted
    have h1 : s.getD (loIdx s.length q1) 0
          + (s.getD (hiIdx s.length q1) 0 - s.getD (loIdx s.length q1) 0)
            * (hPos s.length q1 - (loIdx s.length q1 : ℚ))
        ≤ s.getD (hiIdx s.length q1) 0 := by
      have := mul_le_of_le_one_right (sub_nonneg.mpr hAB1) hfr1b
      linarith
    have h2 : s.getD (loIdx s.length q2) 0
        ≤ s.getD (loIdx s.length q2) 0
          + (s.getD (hiIdx s.length q2) 0 - s.getD (loIdx s.length q2) 0)
            * (hPos s.length q2 - (loIdx s.length q2 : ℚ)) := by
      have := mul_nonneg (sub_nonneg.mpr hAB2) hfr2a
      linarith
    linarith

lemma insertionSort_ne_nil {l : List ℚ} (hl : l ≠ []) :
    l.insertionSort (· ≤ ·) ≠ [] := by
  intro h
  have hlen := (List.perm_insertionSort (· ≤ ·) l).length_eq
  rw [h] at hlen
  exact hl (List.length_eq_zero.mp hlen.symm)

lemma quantileAt_mono (l : List ℚ) (hl : l ≠ []) {q1 q2 : ℚ}
    (h0 : 0 ≤ q1) (h12 : q1 ≤ q2) (h21 : q2 ≤ 1) :
    quantileAt l q1 ≤ quantileAt l q2 :=
  interpSorted_mono (List.sorted_insertionSort _ l) (insertionSort_ne_nil hl) h0 h12 h21

/-- The replacement median always lies inside the original IQR bounds. -/
lemma median_between {col : List ℚ} (h : col ≠ []) :
    lowerOf col ≤ medianOf col ∧ medianOf col ≤ upperOf col := by
  have h1 : quantileAt col (1/4) ≤ quantileAt col (1/2) :=
    quantileAt_mono col h (by norm_num) (by norm_num) (by norm_num)
  have h2 : quantileAt col (1/2) ≤ quantileAt col (3/4) :=
    quantileAt_mono col h (by norm_num) (by norm_num) (by norm_num)
  unfold lowerOf upperOf iqrOf q1Of q3Of medianOf
  constructor <;> linarith

/-- Unrolling the replacement loop: after iterating over `it`, a value of the
accumulator is the median exactly when it is out of bounds and occurs in `it`. -/
lemma foldl_replace_eq (col : List ℚ) (med : ℚ) (it : List ℚ) :
    ∀ acc : List ℚ,
      it.foldl
        (fun acc i =>
          if upperOf col < i ∨ i < lowerOf col then
            acc.map (fun x => if x = i then med else x)
          else acc) acc
      = acc.map
          (fun x => if (upperOf col < x ∨ x < lowerOf col) ∧ x ∈ it then med else x) := by
  induction it with
  | nil => intro acc; simp
  | cons i rest ih =>
    intro acc
    rw [List.foldl_cons, ih]
    by_cases hPi : upperOf col < i ∨ i < lowerOf col
    · rw [if_pos hPi, List.map_map]
      apply List.map_congr_left
      intro x _
      simp only [Function.comp_apply]
      by_cases hx : x = i
      · subst hx
        rw [if_pos rfl, ite_self, if_pos ⟨hPi, List.mem_cons_self x rest⟩]
      · rw [if_neg hx]
        by_cases hxr : (upperOf col < x ∨ x < lowerOf col) ∧ x ∈ rest
        · rw [if_pos hxr, if_pos ⟨hxr.1, List.mem_cons_of_mem i hxr.2⟩]
        · rw [if_neg hxr, if_neg]
          intro hcon
          rcases List.mem_cons.mp hcon.2 with h | h
          · exact hx h
          · exact hxr ⟨hcon.1, h⟩
    · rw [if_neg hPi]
      apply List.map_congr_left
      intro x _
      by_cases hx : x = i
      · subst hx
        rw [if_neg (fun hcon => hPi hcon.1), if_neg (fun hcon => hPi hcon.1)]
      · by_cases hxr : (upperOf col < x ∨ x < lowerOf col) ∧ x ∈ rest
        · rw [if_pos hxr, if_pos ⟨hxr.1, List.mem_cons_of_mem i hxr.2⟩]
        · rw [if_neg hxr, if_neg]
          intro hcon
          rcases List.mem_cons.mp hcon.2 with h | h
          · exact hx h
          · exact hxr ⟨hcon.1, h⟩

/-- `handle_outliers` is the pointwise rewrite: out-of-bounds values become the
original median, in-bounds values are untouched. -/
lemma handle_outliers_eq_map (col : List ℚ) :
    handle_outliers col
      = col.map
          (fun x => if upperOf col < x ∨ x < lowerOf col then medianOf col else x) := by
  unfold handle_outliers
  rw [foldl_replace_eq col (medianOf col) col col]
  apply List.map_congr_left
  intro x hx
  by_cases hP : upperOf col < x ∨ x < lowerOf col
  · rw [if_pos ⟨hP, hx⟩, if_pos hP]
  · rw [if_neg (fun hcon => hP hcon.1), if_neg hP]

/-- **C1**: after `handle_outliers` completes, every value of the column lies
within `[Q1 - 1.5*IQR, Q3 + 1.5*IQR]` computed from the original
pre-replacement values, and every value that was changed equals exactly the
median of the original column. -/
theorem claim_C1_outliers_within_bounds (col : List ℚ) :
    (∀ v ∈ handle_outliers col, lowerOf col ≤ v ∧ v ≤ upperOf col) ∧
    (∀ k, k < col.length → (handle_outliers col).getD k 0 ≠ col.getD k 0 →
      (handle_outliers col).getD k 0 = medianOf col) := by
  constructor
  · intro v hv
    rw [handle_outliers_eq_map] at hv
    rcases List.mem_map.mp hv with ⟨x, hx, rfl⟩
    have hne : col ≠ [] := by rintro rfl; simp at hx
    by_cases hP : upperOf col < x ∨ x < lowerOf col
    · rw [if_pos hP]
      exact median_between hne
    · rw [if_neg hP]
      push_neg at hP
      exact ⟨hP.2, hP.1⟩
  · intro k hk hne
    rw [handle_outliers_eq_map] at hne ⊢
    have hk2 : k < (col.map
        (fun x => if upperOf col < x ∨ x < lowerOf col
          then medianOf col else x)).length := by
      simpa using hk
    rw [List.getD_eq_getElem _ 0 hk2, List.getElem_map] at hne ⊢
    by_cases hP : upperOf col < col[k] ∨ col[k] < lowerOf col
    · rw [if_pos hP]
    · rw [if_neg hP] at hne
      rw [List.getD_eq_getElem col 0 hk] at hne
      exact absurd rfl hne

/-- Witness for C1 at the column `[1, 2, 3, 100]` (the value `100` is an
outlier and gets replaced by the median `5/2`). -/
theorem claim_C1_outliers_within_bounds_witness :
    (lowerOf [1, 2, 3, 100] ≤ (5:ℚ)/2 ∧ (5:ℚ)/2 ≤ upperOf [1, 2, 3, 100]) ∧
    (handle_outliers [1, 2, 3, 100]).getD 3 0 = medianOf [1, 2, 3, 100] :=
  ⟨(claim_C1_outliers_within_bounds [1, 2, 3, 100]).1 ((5:ℚ)/2) (by decide),
   (claim_C1_outliers_within_bounds [1, 2, 3, 100]).2 3 (by decide) (by decide)⟩

/-- **C2**: replacement is value-based and uses the median of the original
column, computed before any replacement: the result is the pointwise rewrite
sending every out-of-bounds value (all of its occurrences) to the original
median and leaving everything else unchanged. -/
theorem claim_C2_value_based_replacement (col : List ℚ) :
    handle_outliers col
      = col.map
          (fun x => if upperOf col < x ∨ x < lowerOf col
            then medianOf col else x) ∧
    (∀ k, k < col.length →
      (upperOf col < col.getD k 0 ∨ col.getD k 0 < lowerOf col) →
      (handle_outliers col).getD k 0 = medianOf col) := by
  refine ⟨handle_outliers_eq_map col, ?_⟩
  intro k hk hout
  rw [handle_outliers_eq_map]
  have hk2 : k < (col.map
      (fun x => if upperOf col < x ∨ x < lowerOf col
        then medianOf col else x)).length := by
    simpa using hk
  rw [List.getD_eq_getElem _ 0 hk2, List.getElem_map]
  rw [List.getD_eq_getElem col 0 hk] at hout
  rw [if_pos hout]

/-- Witness for C2: in `[3, 3, 1, 1, 1, 100, 2, 3, 100]` the out-of-bounds
value `100` occurs twice; both occurrences become the original median. -/
theorem claim_C2_value_based_replacement_witness :
    (handle_outliers [3, 3, 1, 1, 1, 100, 2, 3, 100]).getD 5 0
        = medianOf [3, 3, 1, 1, 1, 100, 2, 3, 100] ∧
    (handle_outliers [3, 3, 1, 1, 1, 100, 2, 3, 100]).getD 8 0
        = medianOf [3, 3, 1, 1, 1, 100, 2, 3, 100] :=
  ⟨(claim_C2_value_based_replacement [3, 3, 1, 1, 1, 100, 2, 3, 100]).2 5
      (by decide) (by decide),
   (claim_C2_value_based_replacement [3, 3, 1, 1, 1, 100, 2, 3, 100]).2 8
      (by decide) (by decide)⟩

/-! ### `app.py`: the Flask serving app

The model artifact is opaque; `model.predict` is an explicit function
parameter of the handler (it may itself fail).  Python floats are modelled
as exact rationals extended with NaN and the signed infinities, with the
IEEE rule that every comparison against NaN is false. -/

/-- A Python float value as far as the serving path observes it. -/
inductive PyFloat where
  | num (q : ℚ)
  | nan
  | pinf
  | ninf
deriving DecidableEq, Repr

/-- Python float `<`: any comparison involving NaN is false. -/
def PyFloat.ltb : PyFloat → PyFloat → Bool
  | .nan, _ => false
  | _, .nan => false
  | .ninf, .ninf => false
  | .ninf, _ => true
  | _, .ninf => false
  | .pinf, _ => false
  | _, .pinf => true
  | .num a, .num b => decide (a < b)

/-- Numeric value of a list of decimal digits. -/
def natOfDigits (cs : List Char) : ℕ :=
  cs.foldl (fun a c => a * 10 + (c.toNat - 48)) 0

/-- A decimal literal: `digits`, `digits.digits`, `.digits` or `digits.`. -/
def pyDecimal? (cs : List Char) : Option ℚ :=
  let ip := cs.takeWhile Char.isDigit
  match cs.dropWhile Char.isDigit with
  | [] => if ip.isEmpty then none else some (natOfDigits ip : ℚ)
  | '.' :: fp =>
    if fp.all Char.isDigit ∧ ¬ (ip.isEmpty ∧ fp.isEmpty) then
      some ((natOfDigits ip : ℚ) + (natOfDigits fp : ℚ) / (10 : ℚ) ^ fp.length)
    else none
  | _ => none

/-- Strip surrounding whitespace and lower-case, at the character level. -/
def pyNormalize (s : String) : List Char :=
  (((s.toList.dropWhile Char.isWhitespace).reverse.dropWhile
      Char.isWhitespace).reverse).map Char.toLower

/-- Model of Python's `float(str)` builtin as exercised by
`_parse_and_validate`: surrounding whitespace is stripped, the special
spellings `nan` / `inf` / `infinity` are case-insensitive and admit an
optional sign, and plain decimal literals with an optional sign parse to
their exact value.  Exponent notation is not needed by any claim and is
treated as a parse failure. -/
def pyFloat? (s : String) : Option PyFloat :=
  let t := pyNormalize s
  let signSplit : Bool × List Char :=
    match t with
    | '+' :: r => (false, r)
    | '-' :: r => (true, r)
    | r => (false, r)
  let neg := signSplit.1
  let u := signSplit.2
  if u = ['n', 'a', 'n'] then some .nan
  else if u = ['i', 'n', 'f'] ∨ u = ['i', 'n', 'f', 'i', 'n', 'i', 't', 'y'] then
    some (if neg then .ninf else .pinf)
  else (pyDecimal? u).map fun q => .num (if neg then -q else q)

/-- One entry of the `IRIS_FEATURES` UI/validation config. -/
structure FeatureConf where
  label : String
  min : ℚ
  max : ℚ
  step : ℚ
  mean : ℚ
  iqr : ℚ × ℚ
  suggested : List ℚ
deriving DecidableEq, Repr

/-- The `IRIS_FEATURES` dict of `app.py` (insertion order preserved). -/
def IRIS_FEATURES : List (String × FeatureConf) :=
  [("SepalLengthCm",
    ⟨"Sepal Length (cm)", 4.3, 7.9, 0.1, 5.84, (5.10, 6.40), [5.1, 5.8, 6.4]⟩),
   ("SepalWidthCm",
    ⟨"Sepal Width (cm)", 2.0, 4.4, 0.1, 3.05, (2.80, 3.30), [2.8, 3.0, 3.3]⟩),
   ("PetalLengthCm",
    ⟨"Petal Length (cm)", 1.0, 6.9, 0.1, 3.76, (1.60, 5.10), [1.6, 3.8, 5.1]⟩),
   ("PetalWidthCm",
    ⟨"Petal Width (cm)", 0.1, 2.5, 0.1, 1.20, (0.30, 1.80), [0.3, 1.2, 1.8]⟩)]

/-- Dictionary lookup `IRIS_FEATURES[name]` (the handler only uses the four
existing keys). -/
def getConf (name : String) : FeatureConf :=
  ((IRIS_FEATURES.find? (fun p => p.1 == name)).map Prod.snd).getD
    ⟨"", 0, 0, 0, 0, (0, 0), []⟩

/-- Payload of the `CustomException`s raised by `_parse_and_validate`. -/
inductive ValError where
  | parseError (label : String)
  | rangeError (label : String) (x : PyFloat) (lo hi : ℚ)
deriving DecidableEq, Repr

/-- Rendering of a `PyFloat` (stands in for Python float formatting). -/
def PyFloat.render : PyFloat → String
  | .num q => toString q
  | .nan => "nan"
  | .pinf => "inf"
  | .ninf => "-inf"

/-- `str(e)`: the displayed message, mirroring the f-strings of
`_parse_and_validate`. -/
def ValError.msg : ValError → String
  | .parseError label => label ++ ": value must be numeric."
  | .rangeError label x lo hi =>
      label ++ ": " ++ x.render ++ " is out of range ["
        ++ toString lo ++ ", " ++ toString hi ++ "]."

/-- `_parse_and_validate(name, value)`: parse as float, then range-check
against the configured `min`/`max`. -/
def parse_and_validate (name value : String) : Except ValError PyFloat :=
  let conf := getConf name
  match pyFloat? value with
  | none => .error (.parseError conf.label)
  | some x =>
    if x.ltb (.num conf.min) || PyFloat.ltb (.num conf.max) x then
      .error (.rangeError conf.label x conf.min conf.max)
    else .ok x

/-- The four posted fields; a missing field is the empty string, per
`request.form.get(name, "")`. -/
structure PostForm where
  sl : String
  sw : String
  pl : String
  pw : String
deriving DecidableEq, Repr

/-- The part of the rendered template the claims are about. -/
structure RenderCtx where
  prediction : Option String
  error : Option String
deriving DecidableEq, Repr

/-- POST branch of the `index` route: validate the four fields in order
inside the try/except; the first raised exception becomes the displayed
error and no prediction is made; otherwise the model is invoked on the
validated feature vector. -/
def index_post
    (predict : PyFloat → PyFloat → PyFloat → PyFloat → Except String String)
    (form : PostForm) : RenderCtx :=
  match parse_and_validate "SepalLengthCm" form.sl with
  | .error e => ⟨none, some e.msg⟩
  | .ok sl =>
    match parse_and_validate "SepalWidthCm" form.sw with
    | .error e => ⟨none, some e.msg⟩
    | .ok sw =>
      match parse_and_validate "PetalLengthCm" form.pl with
      | .error e => ⟨none, some e.msg⟩
      | .ok pl =>
        match parse_and_validate "PetalWidthCm" form.pw with
        | .error e => ⟨none, some e.msg⟩
        | .ok pw =>
          match predict sl sw pl pw with
          | .error e => ⟨none, some e⟩
          | .ok lbl => ⟨some lbl, none⟩

/-- The full `index` route handler; GET renders the blank/default form. -/
def index (isPost : Bool)
    (predict : PyFloat → PyFloat → PyFloat → PyFloat → Except String String)
    (form : PostForm) : RenderCtx :=
  if isPost then index_post predict form else ⟨none, none⟩

/-- The posted fields in the fixed validation order. -/
def fieldOrder (form : PostForm) : List (String × String) :=
  [("SepalLengthCm", form.sl), ("SepalWidthCm", form.sw),
   ("PetalLengthCm", form.pl), ("PetalWidthCm", form.pw)]

/-- The error of a validation outcome, if any. -/
def errorOf : Except ValError PyFloat → Option ValError
  | .error e => some e
  | .ok _ => none

/-- Spec-side description: validate every field independently and keep the
first failure in the fixed field order. -/
def firstFailure (form : PostForm) : Option ValError :=
  (fieldOrder form).findSome? (fun p => errorOf (parse_and_validate p.1 p.2))

deriving instance DecidableEq for Except

/-- The sequential inline validation of the handler surfaces exactly the
first failure of the independent per-field validation. -/
lemma index_post_of_firstFailure
    (predict : PyFloat → PyFloat → PyFloat → PyFloat → Except String String)
    (form : PostForm) (e : ValError) (h : firstFailure form = some e) :
    index_post predict form = ⟨none, some e.msg⟩ := by
  unfold firstFailure fieldOrder at h
  unfold index_post
  cases h1 : parse_and_validate "SepalLengthCm" form.sl with
  | error e1 =>
    simp only [List.findSome?_cons, h1, errorOf, Option.some.injEq] at h
    rw [h]
  | ok a =>
    simp only [List.findSome?_cons, h1, errorOf] at h
    cases h2 : parse_and_validate "SepalWidthCm" form.sw with
    | error e2 =>
      simp only [List.findSome?_cons, h2, errorOf, Option.some.injEq] at h
      rw [h]
    | ok b =>
      simp only [List.findSome?_cons, h2, errorOf] at h
      cases h3 : parse_and_validate "PetalLengthCm" form.pl with
      | error e3 =>
        simp only [List.findSome?_cons, h3, errorOf, Option.some.injEq] at h
        rw [h]
      | ok c =>
        simp only [List.findSome?_cons, h3, errorOf] at h
        cases h4 : parse_and_validate "PetalWidthCm" form.pw with
        | error e4 =>
          simp only [List.findSome?_cons, h4, errorOf, Option.some.injEq] at h
          rw [h]
        | ok d =>
          simp only [List.findSome?_cons, h4, errorOf, List.findSome?_nil] at h
          exact Option.noConfusion h

/-- **C3**: whenever any field fails parsing or range validation, the handler
makes no prediction and its output does not depend on the model at all; the
surfaced error is the first failure in the fixed field order, and a
non-numeric value always produces the parse error naming the feature's
descriptive label. -/
theorem claim_C3_first_failure_blocks_prediction :
    (∀ (form : PostForm) (e : ValError), firstFailure form = some e →
      ∀ predict, index_post predict form = ⟨none, some e.msg⟩) ∧
    (∀ name value, pyFloat? value = none →
      parse_and_validate name value
        = .error (.parseError (getConf name).label)) := by
  constructor
  · intro form e h predict
    exact index_post_of_firstFailure predict form e h
  · intro name value h
    simp only [parse_and_validate, h]

/-- Witness for C3: first field non-numeric, second field out of range;
the surfaced error is the first field's parse error and the prediction is
absent although the model would have succeeded. -/
theorem claim_C3_first_failure_blocks_prediction_witness :
    index_post (fun _ _ _ _ => Except.ok "Iris-setosa")
        ⟨"abc", "9.9", "3.8", "1.2"⟩
      = ⟨none, some ((ValError.parseError "Sepal Length (cm)").msg)⟩ :=
  claim_C3_first_failure_blocks_prediction.1
    ⟨"abc", "9.9", "3.8", "1.2"⟩ (.parseError "Sepal Length (cm)")
    (by decide) (fun _ _ _ _ => Except.ok "Iris-setosa")

/-- **C4**: for each configured feature, a value at a configured bound passes
validation; a value strictly outside the bounds is rejected with the range
error carrying the feature's label, the offending value and the configured
bounds, and a surfaced range error means no prediction is made. -/
theorem claim_C4_range_validation (name : String) (conf : FeatureConf)
    (hmem : (name, conf) ∈ IRIS_FEATURES) (x : ℚ) (v : String)
    (hv : pyFloat? v = some (.num x)) :
    ((conf.min ≤ x ∧ x ≤ conf.max) → parse_and_validate name v = .ok (.num x)) ∧
    ((x < conf.min ∨ conf.max < x) →
      parse_and_validate name v
        = .error (.rangeError conf.label (.num x) conf.min conf.max)) ∧
    (∀ predict form,
      firstFailure form
          = some (.rangeError conf.label (.num x) conf.min conf.max) →
      (index_post predict form).prediction = none) := by
  have hconf : getConf name = conf := by
    fin_cases hmem <;> rfl
  refine ⟨?_, ?_, ?_⟩
  · intro hin
    simp [parse_and_validate, hv, hconf, PyFloat.ltb,
      not_lt.mpr hin.1, not_lt.mpr hin.2]
  · intro hout
    rcases hout with hlo | hhi
    · simp [parse_and_validate, hv, hconf, PyFloat.ltb, hlo]
    · simp [parse_and_validate, hv, hconf, PyFloat.ltb, hhi]
  · intro predict form h
    rw [index_post_of_firstFailure predict form _ h]

/-- Witness for C4 on the first feature: `4.3` (the minimum) is accepted,
`4.2` (one step below) is rejected with the full range error. -/
theorem claim_C4_range_validation_witness :
    parse_and_validate "SepalLengthCm" "4.3" = .ok (.num 4.3) ∧
    parse_and_validate "SepalLengthCm" "4.2"
      = .error (.rangeError "Sepal Length (cm)" (.num 4.2) 4.3 7.9) :=
  ⟨(claim_C4_range_validation "SepalLengthCm"
      ⟨"Sepal Length (cm)", 4.3, 7.9, 0.1, 5.84, (5.10, 6.40), [5.1, 5.8, 6.4]⟩
      (by decide) 4.3 "4.3" (by decide)).1 ⟨by norm_num, by norm_num⟩,
   (claim_C4_range_validation "SepalLengthCm"
      ⟨"Sepal Length (cm)", 4.3, 7.9, 0.1, 5.84, (5.10, 6.40), [5.1, 5.8, 6.4]⟩
      (by decide) 4.2 "4.2" (by decide)).2.1 (Or.inl (by norm_num))⟩

/-- **C5**: the POST handler always produces a rendered context carrying
exactly one of prediction/error: the prediction is absent precisely when an
error message is displayed, and a model exception is caught and converted to
the displayed error string. -/
theorem claim_C5_exactly_one_outcome
    (predict : PyFloat → PyFloat → PyFloat → PyFloat → Except String String)
    (form : PostForm) :
    ((index_post predict form).prediction = none
      ↔ (index_post predict form).error.isSome) ∧
    (∀ a b c d s, parse_and_validate "SepalLengthCm" form.sl = .ok a →
      parse_and_validate "SepalWidthCm" form.sw = .ok b →
      parse_and_validate "PetalLengthCm" form.pl = .ok c →
      parse_and_validate "PetalWidthCm" form.pw = .ok d →
      predict a b c d = .error s →
      index_post predict form = ⟨none, some s⟩) := by
  constructor
  · unfold index_post
    cases parse_and_validate "SepalLengthCm" form.sl with
    | error e => simp
    | ok a =>
      cases parse_and_validate "SepalWidthCm" form.sw with
      | error e => simp
      | ok b =>
        cases parse_and_validate "PetalLengthCm" form.pl with
        | error e => simp
        | ok c =>
          cases parse_and_validate "PetalWidthCm" form.pw with
          | error e => simp
          | ok d =>
            cases hp : predict a b c d with
            | error s => simp [hp]
            | ok lbl => simp [hp]
  · intro a b c d s h1 h2 h3 h4 h5
    simp [index_post, h1, h2, h3, h4, h5]

/-- Witness for C5: with all four fields valid and a model that raises, the
handler displays the exception message and no prediction. -/
theorem claim_C5_exactly_one_outcome_witness :
    index_post (fun _ _ _ _ => Except.error "boom")
        ⟨"5.1", "3.5", "1.4", "0.2"⟩
      = ⟨none, some "boom"⟩ :=
  (claim_C5_exactly_one_outcome (fun _ _ _ _ => Except.error "boom")
      ⟨"5.1", "3.5", "1.4", "0.2"⟩).2
    (.num 5.1) (.num 3.5) (.num 1.4) (.num 0.2) "boom"
    (by decide) (by decide) (by decide) (by decide) rfl

/-- **C9**: `IRIS_FEATURES` holds exactly the four configured features, in
order, with exactly the documented bounds and means.  (The config is a
top-level constant of the embedding; no request handler can mutate it.) -/
theorem claim_C9_feature_config :
    IRIS_FEATURES.map Prod.fst
        = ["SepalLengthCm", "SepalWidthCm", "PetalLengthCm", "PetalWidthCm"] ∧
    (getConf "SepalLengthCm").min = 4.3 ∧ (getConf "SepalLengthCm").max = 7.9 ∧
    (getConf "SepalLengthCm").mean = 5.84 ∧
    (getConf "SepalWidthCm").min = 2.0 ∧ (getConf "SepalWidthCm").max = 4.4 ∧
    (getConf "SepalWidthCm").mean = 3.05 ∧
    (getConf "PetalLengthCm").min = 1.0 ∧ (getConf "PetalLengthCm").max = 6.9 ∧
    (getConf "PetalLengthCm").mean = 3.76 ∧
    (getConf "PetalWidthCm").min = 0.1 ∧ (getConf "PetalWidthCm").max = 2.5 ∧
    (getConf "PetalWidthCm").mean = 1.20 := by
  decide

/-- **C10**: the posted text `nan` in any casing parses to float NaN, the
range check accepts it (every comparison with NaN is false), and the model
is then invoked with the NaN feature value. -/
theorem claim_C10_nan_accepted :
    (∀ s : String, pyNormalize s = ['n', 'a', 'n'] → pyFloat? s = some .nan) ∧
    (∀ name v, pyFloat? v = some .nan → parse_and_validate name v = .ok .nan) ∧
    (∀ predict (form : PostForm) x2 x3 x4,
      pyFloat? form.sl = some .nan →
      parse_and_validate "SepalWidthCm" form.sw = .ok x2 →
      parse_and_validate "PetalLengthCm" form.pl = .ok x3 →
      parse_and_validate "PetalWidthCm" form.pw = .ok x4 →
      index_post predict form =
        match predict .nan x2 x3 x4 with
        | .error e => ⟨none, some e⟩
        | .ok lbl => ⟨some lbl, none⟩) := by
  refine ⟨?_, ?_, ?_⟩
  · intro s h
    simp only [pyFloat?, h]
    rfl
  · intro name v h
    simp only [parse_and_validate, h]
    rfl
  · intro predict form x2 x3 x4 h1 h2 h3 h4
    have e1 : parse_and_validate "SepalLengthCm" form.sl = .ok .nan := by
      simp only [parse_and_validate, h1]
      rfl
    unfold index_post
    rw [e1, h2, h3, h4]

/-- Witness for C10: a form posting `NaN` for sepal length reaches the model
with a NaN first feature (the model used can observe it). -/
theorem claim_C10_nan_accepted_witness :
    index_post
        (fun a _ _ _ =>
          if a = .nan then Except.ok "saw-nan" else Except.ok "other")
        ⟨"NaN", "3.0", "3.8", "1.2"⟩
      = ⟨some "saw-nan", none⟩ :=
  claim_C10_nan_accepted.2.2
    (fun a _ _ _ =>
      if a = .nan then Except.ok "saw-nan" else Except.ok "other")
    ⟨"NaN", "3.0", "3.8", "1.2"⟩
    (.num 3) (.num 3.8) (.num 1.2)
    (by decide) (by decide) (by decide) (by decide)

/-! ### `DataProcessing.split_data` (`src/data_processing.py`, lines 167-209)

`train_test_split(X, Y, test_size=0.2, random_state=42)`.  The seeded
pseudo-random permutation produced by scikit-learn's RNG is an external
library collaborator, modelled as an explicit function
`rng : seed → n → index list`; when `random_state` is `None` scikit-learn
draws from ambient process entropy, modelled by the `ambient` seed.  The
repository always passes `random_state=42`.  Sizes follow scikit-learn:
`n_test = ceil(test_size * n)`, `n_train = floor((1 - test_size) * n)`,
test indices first in the permutation, then train indices. -/

/-- One row of the Iris table. -/
structure Record where
  sl : ℚ
  sw : ℚ
  pl : ℚ
  pw : ℚ
  species : String
deriving DecidableEq, Repr

/-- The four feature columns of a row, in the fixed selection order. -/
def featuresOf (r : Record) : ℚ × ℚ × ℚ × ℚ := (r.sl, r.sw, r.pl, r.pw)

/-- The four persisted artifacts of the splitter. -/
structure SplitOut where
  X_train : List (ℚ × ℚ × ℚ × ℚ)
  X_test : List (ℚ × ℚ × ℚ × ℚ)
  y_train : List String
  y_test : List String
deriving DecidableEq, Repr

/-- Model of scikit-learn `train_test_split` for a float `test_size`. -/
def train_test_split (rng : ℕ → ℕ → List ℕ) (ambient : ℕ)
    (randomState : Option ℕ) (testSize : ℚ)
    (X : List (ℚ × ℚ × ℚ × ℚ)) (Y : List String) : SplitOut :=
  let n := X.length
  let nTest := (⌈testSize * n⌉).toNat
  let nTrain := (⌊(1 - testSize) * n⌋).toNat
  let p := rng (randomState.getD ambient) n
  let testIdx := p.take nTest
  let trainIdx := (p.drop nTest).take nTrain
  ⟨trainIdx.map (fun i => X.getD i (0, 0, 0, 0)),
   testIdx.map (fun i => X.getD i (0, 0, 0, 0)),
   trainIdx.map (fun i => Y.getD i ""),
   testIdx.map (fun i => Y.getD i "")⟩

/-- `DataProcessing.split_data`: select the four measurement columns and the
`Species` column, then split 80/20 with the fixed seed 42. -/
def split_data (rng : ℕ → ℕ → List ℕ) (ambient : ℕ) (df : List Record) :
    SplitOut :=
  train_test_split rng ambient (some 42) 0.2
    (df.map featuresOf) (df.map Record.species)

/-- **C6**: the split is fully determined by the fixed seed 42: two runs on
the identical dataset agree even under different ambient entropy, and even
under different RNG states as long as the seed-42 stream is the same, so row
membership of train/test is identical run to run. -/
theorem claim_C6_split_deterministic
    (rng rng' : ℕ → ℕ → List ℕ) (ambient ambient' : ℕ) (df : List Record)
    (h : rng 42 = rng' 42) :
    split_data rng ambient df = split_data rng' ambient' df ∧
    (∀ r, r ∈ (split_data rng ambient df).X_train
        ↔ r ∈ (split_data rng' ambient' df).X_train) ∧
    (∀ r, r ∈ (split_data rng ambient df).X_test
        ↔ r ∈ (split_data rng' ambient' df).X_test) := by
  have he : split_data rng ambient df = split_data rng' ambient' df := by
    unfold split_data train_test_split
    simp only [Option.getD_some, h]
  exact ⟨he, fun r => by rw [he], fun r => by rw [he]⟩

/-- Witness for C6 on a two-row dataset with the identity permutation
stream and two different ambient seeds. -/
theorem claim_C6_split_deterministic_witness :
    split_data (fun _ n => List.range n) 0
        [⟨5.1, 3.5, 1.4, 0.2, "Iris-setosa"⟩,
         ⟨7.0, 3.2, 4.7, 1.4, "Iris-versicolor"⟩]
      = split_data (fun _ n => List.range n) 99
        [⟨5.1, 3.5, 1.4, 0.2, "Iris-setosa"⟩,
         ⟨7.0, 3.2, 4.7, 1.4, "Iris-versicolor"⟩] :=
  (claim_C6_split_deterministic (fun _ n => List.range n)
    (fun _ n => List.range n) 0 99
    [⟨5.1, 3.5, 1.4, 0.2, "Iris-setosa"⟩,
     ⟨7.0, 3.2, 4.7, 1.4, "Iris-versicolor"⟩] rfl).1

lemma nTest_add_nTrain (n : ℕ) :
    (⌈(0.2 : ℚ) * n⌉).toNat + (⌊(1 - (0.2 : ℚ)) * n⌋).toNat = n := by
  have hkey : ⌈(0.2 : ℚ) * n⌉ + ⌊(1 - (0.2 : ℚ)) * n⌋ = (n : ℤ) := by
    have h1 : (0.2 : ℚ) * n = -((1 - (0.2 : ℚ)) * n) + ((n : ℤ) : ℚ) := by
      push_cast; ring
    rw [h1, Int.ceil_add_int, Int.ceil_neg]
    ring
  have hc : (0 : ℤ) ≤ ⌈(0.2 : ℚ) * n⌉ :=
    Int.ceil_nonneg (by positivity)
  have hn0 : (0 : ℚ) ≤ (n : ℚ) := Nat.cast_nonneg n
  have hf : (0 : ℤ) ≤ ⌊(1 - (0.2 : ℚ)) * n⌋ :=
    Int.floor_nonneg.mpr (by nlinarith)
  omega

lemma nTest_le (n : ℕ) : (⌈(0.2 : ℚ) * n⌉).toNat ≤ n := by
  have := nTest_add_nTrain n
  omega

lemma nTest_ratio (n : ℕ) :
    (0 : ℚ) ≤ (((⌈(0.2 : ℚ) * n⌉).toNat : ℕ) : ℚ) - (1/5) * n ∧
    ((((⌈(0.2 : ℚ) * n⌉).toNat : ℕ) : ℚ) - (1/5) * n) < 1 := by
  have hc : (0 : ℤ) ≤ ⌈(0.2 : ℚ) * n⌉ :=
    Int.ceil_nonneg (by positivity)
  have hcast : (((⌈(0.2 : ℚ) * n⌉).toNat : ℕ) : ℚ) = ((⌈(0.2 : ℚ) * n⌉ : ℤ) : ℚ) := by
    exact_mod_cast congrArg (fun z : ℤ => (z : ℚ)) (Int.toNat_of_nonneg hc)
  have h1 : (0.2 : ℚ) * n ≤ (⌈(0.2 : ℚ) * n⌉ : ℚ) := Int.le_ceil _
  have h2 : (⌈(0.2 : ℚ) * n⌉ : ℚ) < (0.2 : ℚ) * n + 1 := Int.ceil_lt_add_one _
  constructor
  · rw [hcast]; nlinarith
  · rw [hcast]; nlinarith

/-- Mapping `getD` over `range n` recovers the list. -/
lemma map_getD_range {α : Type} (X : List α) (d : α) :
    (List.range X.length).map (fun i => X.getD i d) = X := by
  apply List.ext_getElem
  · simp
  · intro i h1 h2
    simp only [List.getElem_map, List.getElem_range]
    rw [List.getD_eq_getElem X d h2]

/-- **C7**: the test subset holds `ceil(0.2 * n)` rows — within one row of
exactly 20% — and together with the train subset it exhausts the dataset
rows (whenever the RNG stream is a permutation of the row indices, as
scikit-learn's is). -/
theorem claim_C7_split_ratio (rng : ℕ → ℕ → List ℕ) (ambient : ℕ)
    (df : List Record)
    (hp : (rng 42 df.length).Perm (List.range df.length)) :
    (split_data rng ambient df).X_test.length
        + (split_data rng ambient df).X_train.length = df.length ∧
    (0 : ℚ) ≤ ((split_data rng ambient df).X_test.length : ℚ)
        - (1/5) * df.length ∧
    ((split_data rng ambient df).X_test.length : ℚ)
        - (1/5) * df.length < 1 ∧
    ((split_data rng ambient df).X_test
        ++ (split_data rng ambient df).X_train).Perm (df.map featuresOf) := by
  have hXlen : (df.map featuresOf).length = df.length := List.length_map _ _
  have hplen : (rng 42 df.length).length = df.length :=
    hp.length_eq.trans (List.length_range _)
  have hsum := nTest_add_nTrain df.length
  have hle := nTest_le df.length
  have htest : (split_data rng ambient df).X_test.length
      = (⌈(0.2 : ℚ) * df.length⌉).toNat := by
    unfold split_data train_test_split
    simp only [Option.getD_some, List.length_map, List.length_take, hXlen,
      hplen]
    omega
  have htrain : (split_data rng ambient df).X_train.length
      = (⌊(1 - (0.2 : ℚ)) * df.length⌋).toNat := by
    unfold split_data train_test_split
    simp only [Option.getD_some, List.length_map, List.length_take,
      List.length_drop, hXlen, hplen]
    omega
  refine ⟨by rw [htest, htrain]; omega, ?_, ?_, ?_⟩
  · rw [htest]; exact (nTest_ratio df.length).1
  · rw [htest]; exact (nTest_ratio df.length).2
  · have hdt : ((rng 42 df.length).drop ((⌈(0.2 : ℚ) * df.length⌉).toNat)).take
          ((⌊(1 - (0.2 : ℚ)) * df.length⌋).toNat)
        = (rng 42 df.length).drop ((⌈(0.2 : ℚ) * df.length⌉).toNat) := by
      apply List.take_of_length_le
      rw [List.length_drop]
      omega
    have hidx : (rng 42 df.length).take ((⌈(0.2 : ℚ) * df.length⌉).toNat)
        ++ ((rng 42 df.length).drop ((⌈(0.2 : ℚ) * df.length⌉).toNat)).take
            ((⌊(1 - (0.2 : ℚ)) * df.length⌋).toNat)
        = rng 42 df.length := by
      rw [hdt]
      exact List.take_append_drop _ _
    unfold split_data train_test_split
    simp only [Option.getD_some, hXlen, ← List.map_append, hidx]
    calc ((rng 42 df.length).map
            (fun i => (df.map featuresOf).getD i (0, 0, 0, 0))).Perm
          ((List.range df.length).map
            (fun i => (df.map featuresOf).getD i (0, 0, 0, 0))) := hp.map _
      _ = df.map featuresOf := by
          rw [← hXlen, map_getD_range]

/-- Witness for C7 on a concrete five-row dataset: one test row, four train
rows, together a permutation of the data. -/
theorem claim_C7_split_ratio_witness :
    (split_data (fun _ n => List.range n) 0
        [⟨5.1, 3.5, 1.4, 0.2, "Iris-setosa"⟩,
         ⟨4.9, 3.0, 1.4, 0.2, "Iris-setosa"⟩,
         ⟨7.0, 3.2, 4.7, 1.4, "Iris-versicolor"⟩,
         ⟨6.3, 3.3, 6.0, 2.5, "Iris-virginica"⟩,
         ⟨5.8, 2.7, 5.1, 1.9, "Iris-virginica"⟩]).X_test.length
      + (split_data (fun _ n => List.range n) 0
        [⟨5.1, 3.5, 1.4, 0.2, "Iris-setosa"⟩,
         ⟨4.9, 3.0, 1.4, 0.2, "Iris-setosa"⟩,
         ⟨7.0, 3.2, 4.7, 1.4, "Iris-versicolor"⟩,
         ⟨6.3, 3.3, 6.0, 2.5, "Iris-virginica"⟩,
         ⟨5.8, 2.7, 5.1, 1.9, "Iris-virginica"⟩]).X_train.length = 5 :=
  (claim_C7_split_ratio (fun _ n => List.range n) 0
    [⟨5.1, 3.5, 1.4, 0.2, "Iris-setosa"⟩,
     ⟨4.9, 3.0, 1.4, 0.2, "Iris-setosa"⟩,
     ⟨7.0, 3.2, 4.7, 1.4, "Iris-versicolor"⟩,
     ⟨6.3, 3.3, 6.0, 2.5, "Iris-virginica"⟩,
     ⟨5.8, 2.7, 5.1, 1.9, "Iris-virginica"⟩] (List.Perm.refl _)).1

/-! ### `ModelTraining.evaluate_model` (`src/model_training.py`, lines 159-217)

`np.unique` and scikit-learn's `unique_labels` both sort labels
lexicographically; a computable lexicographic order on strings is set up
first. -/

/-- Lexicographic less-or-equal on character lists. -/
def lexLeb : List Char → List Char → Bool
  | [], _ => true
  | _ :: _, [] => false
  | a :: as, b :: bs =>
    if a < b then true else if b < a then false else lexLeb as bs

lemma lexLeb_total : ∀ x y : List Char, lexLeb x y = true ∨ lexLeb y x = true
  | [], _ => Or.inl rfl
  | _ :: _, [] => Or.inr rfl
  | a :: as, b :: bs => by
    rcases lt_trichotomy a b with h | h | h
    · left; simp [lexLeb, h]
    · subst h
      rcases lexLeb_total as bs with ih | ih
      · left; simp [lexLeb, ih]
      · right; simp [lexLeb, ih]
    · right; simp [lexLeb, h]

lemma lexLeb_trans :
    ∀ x y z : List Char,
      lexLeb x y = true → lexLeb y z = true → lexLeb x z = true
  | [], _, _, _, _ => rfl
  | _ :: _, [], _, h1, _ => by simp [lexLeb] at h1
  | _ :: _, _ :: _, [], _, h2 => by simp [lexLeb] at h2
  | a :: as, b :: bs, c :: cs, h1, h2 => by
    rcases lt_trichotomy a b with hab | hab | hab
    · rcases lt_trichotomy b c with hbc | hbc | hbc
      · simp [lexLeb, lt_trans hab hbc]
      · subst hbc; simp [lexLeb, hab]
      · simp [lexLeb, hbc, asymm hbc] at h2
    · subst hab
      rcases lt_trichotomy a c with hac | hac | hac
      · simp [lexLeb, hac]
      · subst hac
        simp only [lexLeb, lt_self_iff_false, if_false] at h1 h2 ⊢
        exact lexLeb_trans as bs cs h1 h2
      · simp [lexLeb, hac, asymm hac] at h2
    · simp [lexLeb, hab, asymm hab] at h1

lemma lexLeb_antisymm :
    ∀ x y : List Char, lexLeb x y = true → lexLeb y x = true → x = y
  | [], [], _, _ => rfl
  | [], _ :: _, _, h2 => by simp [lexLeb] at h2
  | _ :: _, [], h1, _ => by simp [lexLeb] at h1
  | a :: as, b :: bs, h1, h2 => by
    rcases lt_trichotomy a b with h | h | h
    · simp [lexLeb, h, asymm h] at h2
    · subst h
      simp only [lexLeb, lt_self_iff_false, if_false] at h1 h2
      rw [lexLeb_antisymm as bs h1 h2]
    · simp [lexLeb, h, asymm h] at h1

/-- Lexicographic order on strings (the order `np.unique` sorts by for the
ASCII species labels). -/
def strLe (a b : String) : Prop := lexLeb a.data b.data = true

instance : DecidableRel strLe := fun a b => by unfold strLe; infer_instance

instance : IsTotal String strLe := ⟨fun a b => lexLeb_total a.data b.data⟩

instance : IsTrans String strLe :=
  ⟨fun a b c h1 h2 => lexLeb_trans a.data b.data c.data h1 h2⟩

instance : IsAntisymm String strLe :=
  ⟨fun a b h1 h2 => String.ext (lexLeb_antisymm a.data b.data h1 h2)⟩

/-- `np.unique`: the sorted distinct values of a list. -/
def npUnique (l : List String) : List String :=
  List.insertionSort strLe l.dedup

/-- The label order used by scikit-learn `confusion_matrix` (its
`unique_labels`): the sorted distinct labels of `y_true` and `y_pred`
together. -/
def cmLabels (y_true y_pred : List String) : List String :=
  npUnique (y_true ++ y_pred)

/-- Number of test rows with actual class `a` and predicted class `p`. -/
def countPairs (y_true y_pred : List String) (a p : String) : ℕ :=
  ((y_true.zip y_pred).filter (fun t => t.1 == a && t.2 == p)).length

/-- scikit-learn `confusion_matrix`: entry `(i, j)` counts rows whose actual
class is the `i`-th label and predicted class the `j`-th label. -/
def confusion_matrix (y_true y_pred : List String) : List (List ℕ) :=
  (cmLabels y_true y_pred).map
    (fun a => (cmLabels y_true y_pred).map
      (fun p => countPairs y_true y_pred a p))

/-- `accuracy_score`. -/
def accuracy_score (y_true y_pred : List String) : ℚ :=
  (((y_true.zip y_pred).filter (fun t => t.1 == t.2)).length : ℚ)
    / y_true.length

/-- Number of occurrences of class `c` in a label vector. -/
def classCount (l : List String) (c : String) : ℕ :=
  (l.filter (fun x => x == c)).length

/-- Per-class precision with scikit-learn's `zero_division` convention. -/
def precision_of (y_true y_pred : List String) (c : String) : ℚ :=
  if classCount y_pred c = 0 then 0
  else (countPairs y_true y_pred c c : ℚ) / classCount y_pred c

/-- Per-class recall with scikit-learn's `zero_division` convention. -/
def recall_of (y_true y_pred : List String) (c : String) : ℚ :=
  if classCount y_true c = 0 then 0
  else (countPairs y_true y_pred c c : ℚ) / classCount y_true c

/-- Per-class F1. -/
def f1_of (y_true y_pred : List String) (c : String) : ℚ :=
  if precision_of y_true y_pred c + recall_of y_true y_pred c = 0 then 0
  else 2 * precision_of y_true y_pred c * recall_of y_true y_pred c
    / (precision_of y_true y_pred c + recall_of y_true y_pred c)

/-- Support-weighted average over the observed classes
(`average="weighted"`). -/
def weightedAvg (y_true y_pred : List String) (m : String → ℚ) : ℚ :=
  ((cmLabels y_true y_pred).map
    (fun c => (classCount y_true c : ℚ) * m c)).sum / y_true.length

/-- `precision_score(..., average="weighted")`. -/
def precision_score (y_true y_pred : List String) : ℚ :=
  weightedAvg y_true y_pred (precision_of y_true y_pred)

/-- `recall_score(..., average="weighted")`. -/
def recall_score (y_true y_pred : List String) : ℚ :=
  weightedAvg y_true y_pred (recall_of y_true y_pred)

/-- `f1_score(..., average="weighted")`. -/
def f1_score (y_true y_pred : List String) : ℚ :=
  weightedAvg y_true y_pred (f1_of y_true y_pred)

/-- Observable effects of `evaluate_model`: the metrics it logs, the
confusion matrix it draws, the tick labels it puts on the axes, the saved
artifact path, and its (empty) Python return value. -/
structure EvalOutput where
  loggedMetrics : List (String × ℚ)
  cm : List (List ℕ)
  tickLabels : List String
  savedPath : String
  returned : Unit
deriving DecidableEq, Repr

/-- `ModelTraining.evaluate_model`: predict every test row, log the four
weighted metrics, draw the confusion matrix with `np.unique(y_test)` tick
labels and save it. -/
def evaluate_model (predictRow : ℚ × ℚ × ℚ × ℚ → String)
    (X_test : List (ℚ × ℚ × ℚ × ℚ)) (y_test : List String) : EvalOutput :=
  let y_pred := X_test.map predictRow
  ⟨[("Accuracy Score", accuracy_score y_test y_pred),
    ("Precision Score", precision_score y_test y_pred),
    ("Recall Score", recall_score y_test y_pred),
    ("F1 Score", f1_score y_test y_pred)],
   confusion_matrix y_test y_pred,
   npUnique y_test,
   "artifacts/models/confusion_matrix.png",
   ()⟩

/-- C8 as stated is false: when the model predicts a label absent from the
test set, the confusion matrix is indexed by the union of observed labels,
not by the test-set labels (here a 2x2 matrix versus one distinct test
label). -/
theorem claim_C8_counterexample :
    (evaluate_model (fun r => if r = (1, 1, 1, 1) then "a" else "b")
        [(1, 1, 1, 1), (2, 2, 2, 2)] ["a", "a"]).cm.length
      ≠ ((evaluate_model (fun r => if r = (1, 1, 1, 1) then "a" else "b")
        [(1, 1, 1, 1), (2, 2, 2, 2)] ["a", "a"]).tickLabels).length := by
  decide

/-- Two sorted-distinct lists with the same members are equal, so the
confusion-matrix label order collapses to the test-set labels whenever the
predictions introduce no new label. -/
lemma cmLabels_eq {yt yp : List String} (h : ∀ c ∈ yp, c ∈ yt) :
    cmLabels yt yp = npUnique yt := by
  have hnd1 : (cmLabels yt yp).Nodup :=
    ((List.perm_insertionSort strLe (yt ++ yp).dedup).nodup_iff).mpr
      (List.nodup_dedup _)
  have hnd2 : (npUnique yt).Nodup :=
    ((List.perm_insertionSort strLe yt.dedup).nodup_iff).mpr
      (List.nodup_dedup _)
  refine List.eq_of_perm_of_sorted ?_
    (List.sorted_insertionSort strLe _) (List.sorted_insertionSort strLe _)
  rw [List.perm_ext_iff_of_nodup hnd1 hnd2]
  intro a
  unfold cmLabels npUnique
  rw [(List.perm_insertionSort strLe _).mem_iff, List.mem_dedup,
    (List.perm_insertionSort strLe _).mem_iff, List.mem_dedup,
    List.mem_append]
  constructor
  · rintro (ha | ha)
    · exact ha
    · exact h a ha
  · exact Or.inl

/-- **C8 (amended)**: the confusion matrix has rows indexed by actual class
and columns by predicted class, ordered by the sorted distinct labels of the
test set *and the predictions together* — which equals the sorted distinct
test-set labels whenever every predicted label occurs in the test set (the
situation the claim describes); it is rendered to the persisted image path,
and the four metrics are logged while the function returns nothing. -/
theorem claim_C8_confusion_matrix
    (predictRow : ℚ × ℚ × ℚ × ℚ → String)
    (X_test : List (ℚ × ℚ × ℚ × ℚ)) (y_test : List String)
    (hsub : ∀ c ∈ X_test.map predictRow, c ∈ y_test) :
    (evaluate_model predictRow X_test y_test).cm
      = (npUnique y_test).map
          (fun a => (npUnique y_test).map
            (fun p => countPairs y_test (X_test.map predictRow) a p)) ∧
    (evaluate_model predictRow X_test y_test).tickLabels = npUnique y_test ∧
    (evaluate_model predictRow X_test y_test).savedPath
      = "artifacts/models/confusion_matrix.png" ∧
    (evaluate_model predictRow X_test y_test).loggedMetrics.map Prod.fst
      = ["Accuracy Score", "Precision Score", "Recall Score", "F1 Score"] ∧
    (evaluate_model predictRow X_test y_test).returned = () := by
  refine ⟨?_, rfl, rfl, rfl, rfl⟩
  show confusion_matrix y_test (X_test.map predictRow) = _
  unfold confusion_matrix
  rw [cmLabels_eq hsub]

/-- Witness for the amended C8 on a one-row test set whose prediction stays
within the observed labels. -/
theorem claim_C8_confusion_matrix_witness :
    (evaluate_model (fun _ => "Iris-setosa")
        [((5.1 : ℚ), 3.5, 1.4, 0.2)] ["Iris-setosa"]).cm
      = (npUnique ["Iris-setosa"]).map
          (fun a => (npUnique ["Iris-setosa"]).map
            (fun p => countPairs ["Iris-setosa"]
              ([((5.1 : ℚ), 3.5, 1.4, 0.2)].map (fun _ => "Iris-setosa"))
              a p)) :=
  (claim_C8_confusion_matrix (fun _ => "Iris-setosa")
    [((5.1 : ℚ), 3.5, 1.4, 0.2)] ["Iris-setosa"] (by decide)).1

end IrisSpec
